import Mathlib

/-!
Verification development for the session-scoped semantic context store
implemented in `context_service.py` (service `Code Agent Context Service`).

The Python service is embedded shallowly:

* Strings are Lean `String`s; Python indexing, slicing, `len`, `lower` and
  the `in` substring test act on code points, so they are modelled on the
  `.data` character list (`List Char`), whose lexicographic order coincides
  with Python's string comparison by code point.
* The ChromaDB collection is an external dependency of the repository; it is
  modelled from the spec's `VectorIndex` contract (insertion with overwrite
  on id collision, exact-match metadata filtering with an optional limit,
  metadata-filtered deletion, nearest-neighbour search ordered by ascending
  distance, count, drop-and-recreate).  The model keeps entries in insertion
  order, a legitimate instance of the no-ranking-guarantee clause of the contract.
* `datetime.now().isoformat()` is modelled by an explicit clock: a map from
  ticks to timestamp strings together with the index of the next reading;
  every `now()` call consumes one tick.
* The embedding model maps text to a vector; the claims only depend on which
  text is embedded and on distances, so vectors are modelled as integers and
  `embedding_model.encode` is an arbitrary function parameter.
-/

namespace ContextService

/-! ## Python string primitives, modelled on code points -/

/-- Python `len(s)`: the number of code points. -/
def strLen (s : String) : Nat := s.data.length

/-- Python slice `s[:n]`. -/
def strTake (s : String) (n : Nat) : String := String.mk (s.data.take n)

/-- Python slice `s[-n:]` for `n > 0` (last `n` code points, the whole
string when `n` is at least the length). -/
def strTakeRight (s : String) (n : Nat) : String :=
  String.mk (s.data.drop (s.data.length - n))

/-- Python `s.lower()`, restricted to its effect on ASCII letters, which is
all the classification check on the marker `tool` can observe. -/
def strLower (s : String) : String := String.mk (s.data.map Char.toLower)

/-- Does the text start with the pattern? -/
def startsWithChars : List Char → List Char → Bool
  | [], _ => true
  | _ :: _, [] => false
  | p :: ps, c :: cs => p == c && startsWithChars ps cs

/-- Python `pat in text` on code-point lists. -/
def containsChars (pat : List Char) : List Char → Bool
  | [] => startsWithChars pat []
  | c :: cs => startsWithChars pat (c :: cs) || containsChars pat cs

/-- Python `pat in s` for strings. -/
def strContainsSub (s pat : String) : Bool := containsChars pat.data s.data

/-- Python truthiness of `Optional[str]`: `None` and the empty string are
falsy, so `t or d` yields `d` for both. -/
def pyStrOr (t : Option String) (d : String) : String :=
  match t with
  | none => d
  | some s => if s.isEmpty then d else s

/-- Does `t or d` take the default branch (and hence evaluate `d`)? -/
def pyStrOrTakesDefault (t : Option String) : Bool :=
  match t with
  | none => true
  | some s => s.isEmpty

/-! ## Data model -/

/-- An incoming message (`Message` pydantic model): `role`, `content`,
optional `timestamp`, optional caller metadata (modelled as string pairs). -/
structure Message where
  role : String
  content : String
  timestamp : Option String
  extra : List (String × String)
deriving DecidableEq, Repr

/-- The metadata stored with an entry.  `extract_metadata` starts from the
caller's dictionary and then overwrites the reserved keys, so the reserved
keys are structure fields holding the service-computed values and `extra`
keeps the caller's pairs (any reserved key among them is shadowed). -/
structure Metadata where
  session_id : String
  role : String
  type : String
  timestamp : String
  content_length : Nat
  extra : List (String × String)
deriving DecidableEq, Repr

/-- One stored record of the collection: embedding vector (modelled as an
integer), the full document text, and the metadata. -/
structure Entry where
  embedding : Int
  document : String
  metadata : Metadata
deriving DecidableEq, Repr

/-- Modelled from the spec: the `VectorIndex` owns the durable collection of
entries; the model lists them as (id, entry) pairs in insertion order. -/
structure VectorIndex where
  entries : List (String × Entry)
deriving DecidableEq, Repr

/-- A `where` filter as the service builds it: an exact session id match
plus an optional exact type match. -/
structure Filter where
  session_id : String
  type : Option String
deriving DecidableEq, Repr

/-- Exact-match metadata filtering. -/
def matchesFilter (f : Filter) (e : Entry) : Bool :=
  e.metadata.session_id == f.session_id &&
    (match f.type with
     | none => true
     | some t => e.metadata.type == t)

/-- Modelled from the spec: `insert(id, vector, document, metadata)` stores
one entry and overwrites on id collision. -/
def VectorIndex.insert (col : VectorIndex) (id : String) (emb : Int)
    (doc : String) (md : Metadata) : VectorIndex :=
  if col.entries.any (fun p => p.1 == id) then
    ⟨col.entries.map (fun p => if p.1 == id then (id, ⟨emb, doc, md⟩) else p)⟩
  else
    ⟨col.entries ++ [(id, ⟨emb, doc, md⟩)]⟩

/-- Modelled from the spec: `get(filter, limit?)` returns the matching
entries, at most `limit` of them, with no ranking guarantee on order (the
model returns them in insertion order). -/
def VectorIndex.get (col : VectorIndex) (f : Filter) (limit : Option Nat) :
    List (String × Entry) :=
  let m := col.entries.filter (fun p => matchesFilter f p.2)
  match limit with
  | none => m
  | some n => m.take n

/-- Modelled from the spec: `delete(ids)` removes every entry whose id is
listed. -/
def VectorIndex.delete (col : VectorIndex) (ids : List String) : VectorIndex :=
  ⟨col.entries.filter (fun p => !(ids.contains p.1))⟩

/-- Modelled from the spec: `count()` is the total number of entries across
all sessions. -/
def VectorIndex.count (col : VectorIndex) : Nat := col.entries.length

/-- Distance between a query vector and an entry (the model's metric). -/
def distTo (q : Int) (e : Entry) : Nat := (q - e.embedding).natAbs

/-- Modelled from the spec: `nearestNeighbors(queryVector, filter, k)`
returns at most `k` matching entries ordered by ascending distance, ties
broken deterministically (the model keeps insertion order on ties). -/
def VectorIndex.nearestNeighbors (col : VectorIndex) (q : Int) (f : Filter)
    (k : Nat) : List (String × Entry) :=
  (List.insertionSort (fun a b => distTo q a.2 ≤ distTo q b.2)
    (col.entries.filter (fun p => matchesFilter f p.2))).take k

/-- Well-formedness of the collection: ids are pairwise distinct.  The
initial empty collection satisfies it and `insert`/`delete` preserve it. -/
def WF (col : VectorIndex) : Prop := (col.entries.map Prod.fst).Nodup

/-! ## Helper functions of the service -/

/-- Modelled from the spec: `hashlib.md5(raw).hexdigest()` is an external
deterministic hash; the model tags the raw string, which is deterministic
and injective (no claim below relies on hash collisions existing). -/
def md5_hexdigest (s : String) : String := "md5:" ++ s

/-- Python `generate_id`: hash of the string `session_id + "_" + content + "_" +
timestamp`. -/
def generate_id (session_id : String) (content : String) (timestamp : String) :
    String :=
  md5_hexdigest (session_id ++ "_" ++ content ++ "_" ++ timestamp)

/-- The message-type classification of `extract_metadata`. -/
def classifyType (message : Message) : String :=
  if message.role == "user" then "user_query"
  else if strContainsSub (strLower message.content) "tool"
      || strContainsSub message.content "\x7b\"tool\":" then "tool_call"
  else if message.role == "assistant" then "agent_response"
  else "chat"

/-- Python `extract_metadata(message, session_id)`.  The Python body evaluates
`message.timestamp or datetime.now().isoformat()`, so it consumes a clock
tick exactly when the caller's timestamp is missing or empty; the function
returns the metadata together with the next tick. -/
def extract_metadata (clock : Nat → String) (tick : Nat) (message : Message)
    (session_id : String) : Metadata × Nat :=
  let msg_type := classifyType message
  let (ts, tick1) :=
    if pyStrOrTakesDefault message.timestamp then (clock tick, tick + 1)
    else (pyStrOr message.timestamp (clock tick), tick)
  (⟨session_id, message.role, msg_type, ts, strLen message.content,
    message.extra⟩, tick1)

/-- Python `compress_long_content(content, max_length=1000)`: content at most
`max_length` code points long is returned unchanged, otherwise the first
`max_length // 2` code points, a truncation marker, and the last
`max_length // 2` code points.  The `half == 0` guard mirrors Python's
`content[-0:]`, which is the whole string; the service only ever calls this
with the default 1000, where the guard is dead. -/
def compress_long_content (content : String) (max_length : Nat) : String :=
  if strLen content ≤ max_length then content
  else
    let half := max_length / 2
    strTake content half ++ "\n... [content truncated] ...\n" ++
      (if half == 0 then content else strTakeRight content half)

/-! ## Service operations -/

/-- Python `add_context`: derives the timestamp (`message.timestamp or now()`),
computes the id, extracts metadata (which re-evaluates `message.timestamp
or now()` on its own), compresses the content for embedding, encodes it and
inserts.  Returns the id, the new collection, and the next clock tick. -/
def add_context (encode : String → Int) (clock : Nat → String)
    (col : VectorIndex) (tick : Nat) (session_id : String) (message : Message) :
    String × VectorIndex × Nat :=
  let (timestamp, tick1) :=
    if pyStrOrTakesDefault message.timestamp then (clock tick, tick + 1)
    else (pyStrOr message.timestamp (clock tick), tick)
  let doc_id := generate_id session_id message.content timestamp
  let (metadata, tick2) := extract_metadata clock tick1 message session_id
  let content_for_embedding := compress_long_content message.content 1000
  let embedding := encode content_for_embedding
  (doc_id, col.insert doc_id embedding message.content metadata, tick2)

/-- One result row of `query_context`: id, full document, metadata, and the
distance reported by the index. -/
structure QueryMessage where
  id : String
  content : String
  metadata : Metadata
  distance : Nat
deriving DecidableEq, Repr

/-- The `ContextResponse` shape returned by `query_context`. -/
structure QueryResponse where
  messages : List QueryMessage
  total_count : Nat
deriving DecidableEq, Repr

/-- Python `query_context`: embeds the query, builds the session filter plus the
optional type filter, asks for `min(top_k, 20)` nearest neighbours and
formats them in the order the index returned them. -/
def query_context (encode : String → Int) (col : VectorIndex)
    (session_id : String) (query : String) (top_k : Nat)
    (filter_by_type : Option String) : QueryResponse :=
  let query_embedding := encode query
  let results := col.nearestNeighbors query_embedding
    ⟨session_id, filter_by_type⟩ (min top_k 20)
  let messages := results.map (fun p =>
    ⟨p.1, p.2.document, p.2.metadata, distTo query_embedding p.2⟩)
  ⟨messages, messages.length⟩

/-- One result row of `get_recent_context`: id, full document, metadata and
the timestamp lifted out of the metadata (`metadata.get("timestamp", "")`,
which always finds the key the service wrote). -/
structure RecentMessage where
  id : String
  content : String
  metadata : Metadata
  timestamp : String
deriving DecidableEq, Repr

/-- The `ContextResponse` shape returned by `get_recent_context`. -/
structure RecentResponse where
  messages : List RecentMessage
  total_count : Nat
deriving DecidableEq, Repr

/-- The row `get_recent_context` builds for one fetched entry. -/
def toRecentMessage (p : String × Entry) : RecentMessage :=
  ⟨p.1, p.2.document, p.2.metadata, p.2.metadata.timestamp⟩

/-- Python's `list.sort(key=…timestamp, reverse=True)`: a stable sort into
descending timestamp order, comparing timestamps by code point. -/
def sortByTimestampDesc (l : List RecentMessage) : List RecentMessage :=
  List.insertionSort (fun a b => b.timestamp.data ≤ a.timestamp.data) l

/-- Python `get_recent_context(session_id, limit=10, offset=0)`: fetches the
session's entries with `limit=limit + offset` passed to the index, returns
`([], 0)` when nothing came back, otherwise sorts the fetched entries by
timestamp descending and slices `[offset, offset + limit)`; `total_count`
is the number of fetched entries. -/
def get_recent_context (col : VectorIndex) (session_id : String)
    (limit : Nat) (offset : Nat) : RecentResponse :=
  let results := col.get ⟨session_id, none⟩ (some (limit + offset))
  if results.isEmpty then ⟨[], 0⟩
  else
    let messages_with_time := results.map toRecentMessage
    let sorted := sortByTimestampDesc messages_with_time
    ⟨(sorted.drop offset).take limit, messages_with_time.length⟩

/-- Python `clear_context(session_id)`: fetches all ids of the session, deletes
them, and reports how many were fetched. -/
def clear_context (col : VectorIndex) (session_id : String) :
    Nat × VectorIndex :=
  let results := col.get ⟨session_id, none⟩ none
  (results.length, col.delete (results.map Prod.fst))

/-- Python `min` over a nonempty list of strings, comparing by code point
(the `""` default is never reached: the service guards for emptiness). -/
def listMin (l : List String) : String :=
  match l with
  | [] => ""
  | x :: xs => xs.foldl (fun a b : String => if b.data < a.data then b else a) x

/-- Python `max` over a nonempty list of strings, comparing by code point. -/
def listMax (l : List String) : String :=
  match l with
  | [] => ""
  | x :: xs => xs.foldl (fun a b : String => if a.data < b.data then b else a) x

/-- Python `type_counts[t] = type_counts.get(t, 0) + 1` on an
insertion-ordered dictionary. -/
def bumpCount (counts : List (String × Nat)) (t : String) :
    List (String × Nat) :=
  if counts.any (fun p => p.1 == t) then
    counts.map (fun p => if p.1 == t then (p.1, p.2 + 1) else p)
  else counts ++ [(t, 1)]

/-- The response of `get_context_stats`; `oldest_message`/`newest_message`
are absent (`none`) exactly on the empty-session branch. -/
structure StatsResponse where
  session_id : String
  total_messages : Nat
  by_type : List (String × Nat)
  oldest_message : Option String
  newest_message : Option String
deriving DecidableEq, Repr

/-- Python `get_context_stats(session_id)`: fetches all entries of the session;
empty sessions yield zero counts and no timestamps, otherwise the count,
the per-type counts (`metadata.get("type", "unknown")` always finds the key
the service wrote), and the code-point min/max of the timestamps. -/
def get_context_stats (col : VectorIndex) (session_id : String) :
    StatsResponse :=
  let results := col.get ⟨session_id, none⟩ none
  if results.isEmpty then ⟨session_id, 0, [], none, none⟩
  else
    let type_counts := results.foldl
      (fun acc p => bumpCount acc p.2.metadata.type) []
    ⟨session_id, results.length, type_counts,
      some (listMin (results.map (fun p => p.2.metadata.timestamp))),
      some (listMax (results.map (fun p => p.2.metadata.timestamp)))⟩

/-- All entries stored for a session, in insertion order. -/
def sessionEntries (col : VectorIndex) (session_id : String) :
    List (String × Entry) :=
  col.entries.filter (fun p => matchesFilter ⟨session_id, none⟩ p.2)

/-! ## The module state and the full purge -/

/-- The module-level state of `context_service.py`: the Chroma client's
name registry and per-collection stores (keyed by a generation number so a
recreated collection is distinguishable from the destroyed one), the next
generation number, and the module-level variable `collection`, which holds
the generation its handle refers to. -/
structure ServiceState where
  registry : List (String × Nat)
  stores : List (Nat × VectorIndex)
  nextUid : Nat
  collection : Nat
deriving DecidableEq, Repr

/-- The state right after module initialisation: one empty collection named
`agent_context`, and the module-level handle pointing at it. -/
def initialState : ServiceState :=
  ⟨[("agent_context", 0)], [(0, ⟨[]⟩)], 1, 0⟩

/-- Modelled from the spec: `chroma_client.delete_collection(name)` destroys
the named collection and its data. -/
def delete_collection (st : ServiceState) (name : String) : ServiceState :=
  match st.registry.lookup name with
  | none => st
  | some uid =>
    { st with registry := st.registry.filter (fun p => !(p.1 == name)),
              stores := st.stores.filter (fun p => !(p.1 == uid)) }

/-- Modelled from the spec: `chroma_client.create_collection(name)` creates
a fresh empty collection and returns a handle to it. -/
def create_collection (st : ServiceState) (name : String) :
    Nat × ServiceState :=
  (st.nextUid,
   { st with registry := st.registry ++ [(name, st.nextUid)],
             stores := st.stores ++ [(st.nextUid, (⟨[]⟩ : VectorIndex))],
             nextUid := st.nextUid + 1 })

/-- Python `clear_all_context` (DELETE /context/all): deletes the collection and
recreates it, but the Python assignment `collection = chroma_client.create_collection(...)`
binds a function-local name (the function has no `global collection`
declaration), so the module-level handle keeps pointing at the destroyed
generation. -/
def clear_all_context (st : ServiceState) : ServiceState :=
  let st1 := delete_collection st "agent_context"
  let (localCollection, st2) := create_collection st1 "agent_context"
  let _ := localCollection
  { st2 with collection := st.collection }

/-- The collection the module-level handle refers to, when it still
exists. -/
def currentStore (st : ServiceState) : Option VectorIndex :=
  st.stores.lookup st.collection

/-- The health check `root` (GET /): reports `collection.count()`; `none`
models the 500 a destroyed collection raises. -/
def root (st : ServiceState) : Option Nat :=
  (currentStore st).map VectorIndex.count

/-- The spec's write-time type classification, stated from the spec's own
precedence list (§3): the user role first, then the tool-invocation marker
(case-insensitive substring `tool`, or the literal pattern on the raw
content), then the assistant role, otherwise chat. -/
def specClassify (role content : String) : String :=
  if role = "user" then "user_query"
  else if strContainsSub (strLower content) "tool" = true ∨
      strContainsSub content "\x7b\"tool\":" = true then "tool_call"
  else if role = "assistant" then "agent_response"
  else "chat"

/-- The list `counts` is an insertion-ordered dictionary with pairwise-distinct keys
representing the count function `f`, and its values sum to `n`. -/
def RepCounts (counts : List (String × Nat)) (f : String → Nat) (n : Nat) :
    Prop :=
  (counts.map Prod.fst).Nodup ∧
  (∀ t, counts.lookup t = if f t = 0 then none else some (f t)) ∧
  (counts.map Prod.snd).sum = n

/-! ## Concrete fixtures used by witnesses and counterexamples -/

/-- A constant embedding function for concrete evaluations. -/
def encode0 : String → Int := fun _ => 0

/-- A strictly increasing concrete clock (valid for the first ten ticks). -/
def clock0 : Nat → String := fun n => "2024-01-01T00:00:0" ++ toString n

/-- A concrete clock with microsecond resolution: consecutive readings
differ in the last digit, as two nearby `datetime.now().isoformat()` calls
do. -/
def clockMicro : Nat → String :=
  fun n => "2024-01-01T00:00:00.00000" ++ toString n

/-- A concrete stored entry. -/
def sampleEntry (sid role ty ts doc : String) : Entry :=
  ⟨0, doc, ⟨sid, role, ty, ts, strLen doc, []⟩⟩

/-- A concrete store: two entries of session `s` (the older one inserted
first) and one entry of session `other`. -/
def sampleCol : VectorIndex :=
  ⟨[("id1", sampleEntry "s" "user" "user_query" "2024-01-01T00:00:00" "hello"),
    ("id2", sampleEntry "s" "user" "user_query" "2024-01-02T00:00:00" "world"),
    ("id3",
      sampleEntry "other" "user" "user_query" "2024-01-03T00:00:00" "bye")]⟩

/-- The module state after startup once `sampleCol` has been stored. -/
def populatedState : ServiceState :=
  ⟨[("agent_context", 0)], [(0, sampleCol)], 1, 0⟩

/-- A message used by the witnesses: the first write of a colliding pair. -/
def msgW1 : Message := ⟨"user", "same", some "2024-01-01T00:00:00", []⟩

/-- A message used by the witnesses: the second write of a colliding pair,
identical `(session_id, content, timestamp)` but a different role. -/
def msgW2 : Message := ⟨"assistant", "same", some "2024-01-01T00:00:00", []⟩

/-- A 1200-character content used by the compression witness. -/
def longContent : String :=
  String.mk (List.replicate 600 'a' ++ List.replicate 600 'b')

/-! ## Helper lemmas -/

theorem eq_of_mem_of_nodup_keys {l : List (String × Entry)}
    (h : (l.map Prod.fst).Nodup) {k : String} {x y : Entry}
    (hx : (k, x) ∈ l) (hy : (k, y) ∈ l) : x = y := by
  induction l with
  | nil => cases hx
  | cons p rest ih =>
    simp only [List.map_cons, List.nodup_cons] at h
    rcases List.mem_cons.mp hx with hx1 | hx2 <;>
      rcases List.mem_cons.mp hy with hy1 | hy2
    · have h2 := hx1.trans hy1.symm
      simp only [Prod.mk.injEq] at h2
      exact h2.2
    · exfalso
      apply h.1
      rw [← hx1]
      exact List.mem_map.mpr ⟨(k, y), hy2, rfl⟩
    · exfalso
      apply h.1
      rw [← hy1]
      exact List.mem_map.mpr ⟨(k, x), hx2, rfl⟩
    · exact ih h.2 hx2 hy2

theorem insert_keys (col : VectorIndex) (id : String) (emb : Int)
    (doc : String) (md : Metadata) :
    (col.insert id emb doc md).entries.map Prod.fst =
      if col.entries.any (fun p => p.1 == id) then col.entries.map Prod.fst
      else col.entries.map Prod.fst ++ [id] := by
  unfold VectorIndex.insert
  split
  · next h =>
    simp only [h, if_true, List.map_map]
    apply List.map_congr_left
    intro p _
    simp only [Function.comp_apply]
    by_cases hp : p.1 = id
    · simp [hp]
    · simp [beq_iff_eq, hp]
  · next h =>
    simp only [Bool.not_eq_true] at h
    simp [h]

theorem wf_insert {col : VectorIndex} (hwf : WF col) (id : String) (emb : Int)
    (doc : String) (md : Metadata) : WF (col.insert id emb doc md) := by
  unfold WF
  rw [insert_keys]
  split
  · exact hwf
  · next h =>
    rw [List.nodup_append]
    refine ⟨hwf, List.nodup_singleton id, ?_⟩
    intro a ha hb
    rcases List.mem_map.mp ha with ⟨p, hp, rfl⟩
    have hid := List.mem_singleton.mp hb
    simp only [Bool.not_eq_true] at h
    have hfalse := List.any_eq_false.mp h p hp
    rw [hid] at hfalse
    simp at hfalse

theorem filter_map_overwrite (l : List (String × Entry))
    (hnd : (l.map Prod.fst).Nodup) (id : String) (e : Entry)
    (hany : l.any (fun p => p.1 == id) = true) :
    (l.map (fun p => if p.1 == id then (id, e) else p)).filter
      (fun p => p.1 == id) = [(id, e)] := by
  induction l with
  | nil => simp at hany
  | cons p rest ih =>
    simp only [List.map_cons, List.nodup_cons] at hnd
    by_cases hp : p.1 = id
    · have hrest : (rest.map (fun q => if q.1 == id then (id, e) else q)).filter
          (fun q => q.1 == id) = [] := by
        apply List.filter_eq_nil_iff.mpr
        intro q hq
        rcases List.mem_map.mp hq with ⟨q0, hq0, rfl⟩
        by_cases hq1 : q0.1 = id
        · exfalso
          apply hnd.1
          apply List.mem_map.mpr
          exact ⟨q0, hq0, by rw [hq1, hp]⟩
        · simp [beq_iff_eq, hq1]
      have hmap : (p :: rest).map (fun q => if q.1 == id then (id, e) else q) =
          (id, e) :: rest.map (fun q => if q.1 == id then (id, e) else q) := by
        simp [beq_iff_eq, hp]
      rw [hmap, List.filter_cons_of_pos (by simp), hrest]
    · have hrest : rest.any (fun q => q.1 == id) = true := by
        simpa [List.any_cons, beq_iff_eq, hp] using hany
      have hmap : (p :: rest).map (fun q => if q.1 == id then (id, e) else q) =
          p :: rest.map (fun q => if q.1 == id then (id, e) else q) := by
        simp [beq_iff_eq, hp]
      rw [hmap, List.filter_cons_of_neg (by simp [beq_iff_eq, hp])]
      exact ih hnd.2 hrest

theorem insert_filter_key (col : VectorIndex) (hwf : WF col) (id : String)
    (emb : Int) (doc : String) (md : Metadata) :
    (col.insert id emb doc md).entries.filter (fun p => p.1 == id) =
      [(id, (⟨emb, doc, md⟩ : Entry))] := by
  unfold VectorIndex.insert
  split
  · next h => exact filter_map_overwrite col.entries hwf id ⟨emb, doc, md⟩ h
  · next h =>
    rw [List.filter_append]
    have h1 : col.entries.filter (fun p => p.1 == id) = [] := by
      apply List.filter_eq_nil_iff.mpr
      intro p hp
      simp only [Bool.not_eq_true] at h
      have := List.any_eq_false.mp h p hp
      simpa using this
    simp [h1]

theorem contains_session_ids {col : VectorIndex} (hwf : WF col)
    (sid : String) (p : String × Entry) (hp : p ∈ col.entries) :
    (((col.entries.filter (fun q => matchesFilter ⟨sid, none⟩ q.2)).map
      Prod.fst).contains p.1) = matchesFilter ⟨sid, none⟩ p.2 := by
  by_cases hm : matchesFilter ⟨sid, none⟩ p.2 = true
  · rw [hm]
    have hmem : p.1 ∈ (col.entries.filter
        (fun q => matchesFilter ⟨sid, none⟩ q.2)).map Prod.fst :=
      List.mem_map.mpr ⟨p, List.mem_filter.mpr ⟨hp, hm⟩, rfl⟩
    exact List.elem_eq_true_of_mem hmem
  · rw [Bool.not_eq_true] at hm
    rw [hm]
    rw [Bool.eq_false_iff]
    intro hcon
    have hmem := List.mem_of_elem_eq_true hcon
    rcases List.mem_map.mp hmem with ⟨q, hq, hq1⟩
    obtain ⟨hqin, hqmatch⟩ := List.mem_filter.mp hq
    have hq' : (p.1, q.2) ∈ col.entries := by
      have hqeq : q = (p.1, q.2) := Prod.ext hq1 rfl
      rwa [hqeq] at hqin
    have hp' : (p.1, p.2) ∈ col.entries := hp
    have heq : q.2 = p.2 := eq_of_mem_of_nodup_keys hwf hq' hp'
    rw [heq] at hqmatch
    rw [hqmatch] at hm
    exact Bool.true_eq_false.mp hm

theorem clear_context_entries (col : VectorIndex) (sid : String)
    (hwf : WF col) :
    (clear_context col sid).2.entries =
      col.entries.filter (fun p => !(matchesFilter ⟨sid, none⟩ p.2)) := by
  unfold clear_context VectorIndex.delete VectorIndex.get
  simp only
  apply List.filter_congr
  intro p hp
  rw [contains_session_ids hwf sid p hp]

theorem add_context_of_some (encode : String → Int) (clock : Nat → String)
    (col : VectorIndex) (tick : Nat) (sid : String) (m : Message) (s : String)
    (hts : m.timestamp = some s) (hne : s.isEmpty = false) :
    add_context encode clock col tick sid m =
      (generate_id sid m.content s,
       col.insert (generate_id sid m.content s)
         (encode (compress_long_content m.content 1000)) m.content
         ⟨sid, m.role, classifyType m, s, strLen m.content, m.extra⟩,
       tick) := by
  unfold add_context extract_metadata pyStrOrTakesDefault pyStrOr
  rw [hts]
  simp [hne]

theorem sortByTimestampDesc_perm (l : List RecentMessage) :
    (sortByTimestampDesc l).Perm l :=
  List.perm_insertionSort _ l

theorem sortByTimestampDesc_sorted (l : List RecentMessage) :
    List.Sorted (fun a b => b.timestamp.data ≤ a.timestamp.data)
      (sortByTimestampDesc l) := by
  haveI : IsTotal RecentMessage
      (fun a b => b.timestamp.data ≤ a.timestamp.data) :=
    ⟨fun a b => le_total b.timestamp.data a.timestamp.data⟩
  haveI : IsTrans RecentMessage
      (fun a b => b.timestamp.data ≤ a.timestamp.data) :=
    ⟨fun a b c hab hbc => le_trans hbc hab⟩
  exact List.sorted_insertionSort _ l

theorem nearestNeighbors_sorted (col : VectorIndex) (q : Int) (f : Filter)
    (k : Nat) :
    List.Pairwise (fun a b => distTo q a.2 ≤ distTo q b.2)
      (col.nearestNeighbors q f k) := by
  unfold VectorIndex.nearestNeighbors
  apply List.Pairwise.sublist (List.take_sublist _ _)
  haveI : IsTotal (String × Entry) (fun a b => distTo q a.2 ≤ distTo q b.2) :=
    ⟨fun a b => le_total _ _⟩
  haveI : IsTrans (String × Entry) (fun a b => distTo q a.2 ≤ distTo q b.2) :=
    ⟨fun a b c => le_trans⟩
  exact List.sorted_insertionSort _ _

theorem length_nearestNeighbors (col : VectorIndex) (q : Int) (f : Filter)
    (k : Nat) : (col.nearestNeighbors q f k).length ≤ k := by
  unfold VectorIndex.nearestNeighbors
  exact (List.length_take _ _).le.trans (min_le_left _ _)

theorem mem_nearestNeighbors {col : VectorIndex} {q : Int} {f : Filter}
    {k : Nat} {x : String × Entry} (hx : x ∈ col.nearestNeighbors q f k) :
    x ∈ col.entries ∧ matchesFilter f x.2 = true := by
  unfold VectorIndex.nearestNeighbors at hx
  have h1 := (List.take_sublist _ _).subset hx
  have h2 := (List.perm_insertionSort
    (fun a b : String × Entry => distTo q a.2 ≤ distTo q b.2) _).subset h1
  exact ⟨(List.mem_filter.mp h2).1, (List.mem_filter.mp h2).2⟩

theorem mem_recent_messages {col : VectorIndex} {sid : String}
    {limit offset : Nat} {m : RecentMessage}
    (hm : m ∈ (get_recent_context col sid limit offset).messages) :
    ∃ p, p ∈ col.entries ∧ matchesFilter ⟨sid, none⟩ p.2 = true ∧
      m = toRecentMessage p := by
  unfold get_recent_context at hm
  by_cases hc : (col.get ⟨sid, none⟩ (some (limit + offset))).isEmpty
  · simp only [hc, if_true] at hm
    cases hm
  · simp only [hc, if_false] at hm
    have h1 := (List.take_sublist _ _).subset hm
    have h2 := (List.drop_sublist _ _).subset h1
    have h3 := (sortByTimestampDesc_perm _).subset h2
    rcases List.mem_map.mp h3 with ⟨p, hp, hpm⟩
    have hp2 : p ∈ (col.entries.filter
        (fun q => matchesFilter ⟨sid, none⟩ q.2)) := by
      unfold VectorIndex.get at hp
      exact (List.take_sublist _ _).subset hp
    exact ⟨p, (List.mem_filter.mp hp2).1, (List.mem_filter.mp hp2).2, hpm.symm⟩

theorem foldlMin_spec (xs : List String) : ∀ a : String,
    ((xs.foldl (fun a b : String => if b.data < a.data then b else a) a) = a ∨
      (xs.foldl (fun a b : String => if b.data < a.data then b else a) a) ∈ xs) ∧
    (xs.foldl (fun a b : String => if b.data < a.data then b else a) a).data ≤ a.data ∧
    ∀ y ∈ xs,
      (xs.foldl (fun a b : String => if b.data < a.data then b else a) a).data ≤
        y.data := by
  induction xs with
  | nil =>
    intro a
    refine ⟨Or.inl rfl, le_refl _, ?_⟩
    intro y hy
    cases hy
  | cons b xs ih =>
    intro a
    simp only [List.foldl_cons]
    obtain ⟨hmem, hle, hall⟩ := ih (if b.data < a.data then b else a)
    refine ⟨?_, ?_, ?_⟩
    · rcases hmem with h | h
      · rw [h]
        by_cases hba : b.data < a.data
        · rw [if_pos hba]
          exact Or.inr (List.mem_cons_self b xs)
        · rw [if_neg hba]
          exact Or.inl rfl
      · exact Or.inr (List.mem_cons_of_mem b h)
    · refine le_trans hle ?_
      by_cases hba : b.data < a.data
      · rw [if_pos hba]
        exact le_of_lt hba
      · rw [if_neg hba]
    · intro y hy
      rcases List.mem_cons.mp hy with rfl | hy2
      · refine le_trans hle ?_
        by_cases hba : y.data < a.data
        · rw [if_pos hba]
        · rw [if_neg hba]
          exact le_of_not_lt hba
      · exact hall y hy2

theorem foldlMax_spec (xs : List String) : ∀ a : String,
    ((xs.foldl (fun a b : String => if a.data < b.data then b else a) a) = a ∨
      (xs.foldl (fun a b : String => if a.data < b.data then b else a) a) ∈ xs) ∧
    a.data ≤ (xs.foldl (fun a b : String => if a.data < b.data then b else a) a).data ∧
    ∀ y ∈ xs,
      y.data ≤
        (xs.foldl (fun a b : String => if a.data < b.data then b else a) a).data := by
  induction xs with
  | nil =>
    intro a
    refine ⟨Or.inl rfl, le_refl _, ?_⟩
    intro y hy
    cases hy
  | cons b xs ih =>
    intro a
    simp only [List.foldl_cons]
    obtain ⟨hmem, hle, hall⟩ := ih (if a.data < b.data then b else a)
    refine ⟨?_, ?_, ?_⟩
    · rcases hmem with h | h
      · rw [h]
        by_cases hba : a.data < b.data
        · rw [if_pos hba]
          exact Or.inr (List.mem_cons_self b xs)
        · rw [if_neg hba]
          exact Or.inl rfl
      · exact Or.inr (List.mem_cons_of_mem b h)
    · refine le_trans ?_ hle
      by_cases hba : a.data < b.data
      · rw [if_pos hba]
        exact le_of_lt hba
      · rw [if_neg hba]
    · intro y hy
      rcases List.mem_cons.mp hy with rfl | hy2
      · refine le_trans ?_ hle
        by_cases hba : a.data < y.data
        · rw [if_pos hba]
        · rw [if_neg hba]
          exact le_of_not_lt hba
      · exact hall y hy2

theorem listMin_spec (x : String) (xs : List String) :
    listMin (x :: xs) ∈ x :: xs ∧
      ∀ y ∈ x :: xs, (listMin (x :: xs)).data ≤ y.data := by
  obtain ⟨hmem, hle, hall⟩ := foldlMin_spec xs x
  constructor
  · simp only [listMin]
    rcases hmem with h | h
    · rw [h]
      exact List.mem_cons_self x xs
    · exact List.mem_cons_of_mem x h
  · intro y hy
    simp only [listMin]
    rcases List.mem_cons.mp hy with rfl | hy2
    · exact hle
    · exact hall y hy2

theorem listMax_spec (x : String) (xs : List String) :
    listMax (x :: xs) ∈ x :: xs ∧
      ∀ y ∈ x :: xs, y.data ≤ (listMax (x :: xs)).data := by
  obtain ⟨hmem, hle, hall⟩ := foldlMax_spec xs x
  constructor
  · simp only [listMax]
    rcases hmem with h | h
    · rw [h]
      exact List.mem_cons_self x xs
    · exact List.mem_cons_of_mem x h
  · intro y hy
    simp only [listMax]
    rcases List.mem_cons.mp hy with rfl | hy2
    · exact hle
    · exact hall y hy2

theorem add_context_of_default (encode : String → Int) (clock : Nat → String)
    (col : VectorIndex) (tick : Nat) (sid : String) (m : Message)
    (hdef : pyStrOrTakesDefault m.timestamp = true) :
    add_context encode clock col tick sid m =
      (generate_id sid m.content (clock tick),
       col.insert (generate_id sid m.content (clock tick))
         (encode (compress_long_content m.content 1000)) m.content
         ⟨sid, m.role, classifyType m, clock (tick + 1), strLen m.content,
           m.extra⟩,
       tick + 2) := by
  unfold add_context extract_metadata
  rw [hdef]
  simp

theorem lookup_cons_pair {β : Type} (k : String) (v : β)
    (rest : List (String × β)) (a : String) :
    (((k, v) :: rest).lookup a) = if a = k then some v else rest.lookup a := by
  by_cases h : a = k
  · rw [if_pos h, h]
    simp [List.lookup]
  · rw [if_neg h]
    have hb : (a == k) = false := beq_eq_false_iff_ne.mpr h
    simp [List.lookup, hb]

theorem map_bump_cons (k : String) (v : Nat) (rest : List (String × Nat))
    (t : String) :
    (((k, v) :: rest).map (fun p => if p.1 == t then (p.1, p.2 + 1) else p)) =
      (if k = t then (k, v + 1) else (k, v)) ::
        rest.map (fun p => if p.1 == t then (p.1, p.2 + 1) else p) := by
  simp only [List.map_cons]
  congr 1
  by_cases hk : k = t <;> simp [beq_iff_eq, hk]

theorem lookup_map_bump (counts : List (String × Nat)) (t t' : String) :
    ((counts.map (fun p => if p.1 == t then (p.1, p.2 + 1) else p)).lookup
      t') =
      if t' = t then (counts.lookup t').map (fun v => v + 1)
      else counts.lookup t' := by
  induction counts with
  | nil => by_cases h : t' = t <;> simp [h, List.lookup]
  | cons p rest ih =>
    obtain ⟨k, v⟩ := p
    rw [map_bump_cons]
    by_cases hk : k = t
    · rw [if_pos hk, lookup_cons_pair, lookup_cons_pair, ih]
      by_cases ht : t' = t
      · have htk : t' = k := by rw [ht, hk]
        rw [if_pos htk, if_pos ht, if_pos htk]
        rfl
      · have htk : ¬ t' = k := fun hh => ht (by rw [hh, hk])
        rw [if_neg htk, if_neg ht, if_neg ht, if_neg htk]
    · rw [if_neg hk, lookup_cons_pair, lookup_cons_pair, ih]
      by_cases htk : t' = k
      · have ht : ¬ t' = t := by
          rw [htk]
          exact hk
        rw [if_pos htk, if_pos htk, if_neg ht]
      · rw [if_neg htk, if_neg htk]

theorem lookup_append_single (counts : List (String × Nat)) (t t' : String)
    (v : Nat) :
    ((counts ++ [(t, v)]).lookup t') =
      (match counts.lookup t' with
       | some w => some w
       | none => if t' = t then some v else none) := by
  induction counts with
  | nil =>
    simp only [List.nil_append, List.lookup_nil, lookup_cons_pair]
  | cons p rest ih =>
    obtain ⟨k, v0⟩ := p
    rw [List.cons_append, lookup_cons_pair, lookup_cons_pair]
    by_cases hk : t' = k
    · rw [if_pos hk, if_pos hk]
    · rw [if_neg hk, if_neg hk, ih]

theorem lookup_ne_none_of_key (counts : List (String × Nat)) (t : String)
    (h : counts.any (fun p => p.1 == t) = true) :
    counts.lookup t ≠ none := by
  induction counts with
  | nil => simp at h
  | cons p rest ih =>
    obtain ⟨k, v⟩ := p
    rw [lookup_cons_pair]
    by_cases hk : t = k
    · rw [if_pos hk]
      exact Option.some_ne_none v
    · rw [if_neg hk]
      apply ih
      have hkt : ¬ k = t := fun hh => hk hh.symm
      simpa [List.any_cons, beq_iff_eq, hkt] using h

theorem lookup_none_of_no_key (counts : List (String × Nat)) (t : String)
    (h : counts.any (fun p => p.1 == t) = false) :
    counts.lookup t = none := by
  induction counts with
  | nil => simp [List.lookup]
  | cons p rest ih =>
    obtain ⟨k, v⟩ := p
    simp only [List.any_cons, Bool.or_eq_false_iff] at h
    have hk : ¬ k = t := by simpa [beq_iff_eq] using h.1
    rw [lookup_cons_pair, if_neg (fun hh => hk hh.symm)]
    exact ih h.2

theorem sum_map_bump (counts : List (String × Nat))
    (hnd : (counts.map Prod.fst).Nodup) (t : String)
    (hany : counts.any (fun p => p.1 == t) = true) :
    (((counts.map (fun p => if p.1 == t then (p.1, p.2 + 1) else p)).map
      Prod.snd).sum) = ((counts.map Prod.snd).sum) + 1 := by
  induction counts with
  | nil => simp at hany
  | cons p rest ih =>
    obtain ⟨k, v⟩ := p
    simp only [List.map_cons, List.nodup_cons] at hnd
    by_cases hk : k = t
    · have hrest : rest.map
          (fun p => if p.1 == t then (p.1, p.2 + 1) else p) = rest := by
        have hcong : ∀ q ∈ rest,
            (if q.1 == t then (q.1, q.2 + 1) else q) = q := by
          intro q hq
          have hqt : ¬ q.1 = t := by
            intro hqt
            apply hnd.1
            exact List.mem_map.mpr ⟨q, hq, by rw [hqt, hk]⟩
          simp [beq_iff_eq, hqt]
        calc rest.map (fun p => if p.1 == t then (p.1, p.2 + 1) else p)
            = rest.map id := List.map_congr_left hcong
          _ = rest := List.map_id rest
      simp only [List.map_cons]
      rw [if_pos (by simpa [beq_iff_eq] using hk), hrest]
      simp only [List.map_cons, List.sum_cons]
      omega
    · have hrest : rest.any (fun p => p.1 == t) = true := by
        simpa [List.any_cons, beq_iff_eq, hk] using hany
      simp only [List.map_cons]
      rw [if_neg (by simpa [beq_iff_eq] using hk)]
      simp only [List.map_cons, List.sum_cons]
      rw [ih hnd.2 hrest]
      omega

theorem rep_bump {counts : List (String × Nat)} {f : String → Nat} {n : Nat}
    (hr : RepCounts counts f n) (t : String) :
    RepCounts (bumpCount counts t)
      (fun u => if u = t then f u + 1 else f u) (n + 1) := by
  obtain ⟨hnd, hlook, hsum⟩ := hr
  unfold bumpCount
  by_cases hany : counts.any (fun p => p.1 == t) = true
  · rw [if_pos hany]
    refine ⟨?_, ?_, ?_⟩
    · have hkeys : (counts.map
          (fun p => if p.1 == t then (p.1, p.2 + 1) else p)).map Prod.fst =
          counts.map Prod.fst := by
        rw [List.map_map]
        apply List.map_congr_left
        intro p _
        by_cases hp : p.1 = t <;> simp [beq_iff_eq, hp]
      rw [hkeys]
      exact hnd
    · intro u
      rw [lookup_map_bump]
      by_cases hu : u = t
      · rw [if_pos hu, hu, hlook t]
        have hft : f t ≠ 0 := by
          intro h0
          exact lookup_ne_none_of_key counts t hany (by rw [hlook t, if_pos h0])
        simp [hft]
      · rw [if_neg hu, hlook u]
        simp [hu]
    · rw [sum_map_bump counts hnd t hany, hsum]
  · rw [if_neg hany]
    have hany' : counts.any (fun p => p.1 == t) = false :=
      Bool.not_eq_true _ ▸ hany
    have hnone : counts.lookup t = none := lookup_none_of_no_key counts t hany'
    have hft : f t = 0 := by
      by_contra h0
      rw [hlook t, if_neg h0] at hnone
      cases hnone
    refine ⟨?_, ?_, ?_⟩
    · rw [List.map_append, List.nodup_append]
      refine ⟨hnd, by simp, ?_⟩
      intro a ha hb
      rcases List.mem_map.mp ha with ⟨p, hp, rfl⟩
      have hat : p.1 = t := by simpa using hb
      have := List.any_eq_false.mp hany' p hp
      rw [hat] at this
      simp at this
    · intro u
      rw [lookup_append_single]
      by_cases hu : u = t
      · rw [hu, hnone]
        simp [hu, hft]
      · rw [hlook u]
        by_cases h0 : f u = 0 <;> simp [h0, hu]
    · simp [hsum]

theorem rep_ext {counts : List (String × Nat)} {f g : String → Nat} {n : Nat}
    (h : ∀ t, f t = g t) (hr : RepCounts counts f n) : RepCounts counts g n :=
  ⟨hr.1, fun t => by rw [← h t]; exact hr.2.1 t, hr.2.2⟩

theorem fold_rep (l : List (String × Entry)) :
    ∀ (acc : List (String × Nat)) (f : String → Nat) (n : Nat),
    RepCounts acc f n →
    RepCounts (l.foldl (fun a p => bumpCount a p.2.metadata.type) acc)
      (fun t => f t + l.countP (fun p => p.2.metadata.type == t))
      (n + l.length) := by
  induction l with
  | nil =>
    intro acc f n hr
    simp only [List.foldl_nil, List.countP_nil, List.length_nil, Nat.add_zero]
    exact rep_ext (fun t => (Nat.add_zero (f t)).symm) hr
  | cons p rest ih =>
    intro acc f n hr
    simp only [List.foldl_cons, List.length_cons]
    have h1 := rep_bump hr p.2.metadata.type
    have h2 := ih _ _ _ h1
    have hlen : n + 1 + rest.length = n + (rest.length + 1) := by omega
    rw [← hlen]
    apply rep_ext ?_ h2
    intro t
    rw [List.countP_cons]
    by_cases ht : t = p.2.metadata.type
    · rw [ht]
      simp only [eq_self_iff_true, beq_self_eq_true, if_true]
      omega
    · have hts : ¬ p.2.metadata.type = t := fun hh => ht hh.symm
      have hb : (p.2.metadata.type == t) = false := beq_eq_false_iff_ne.mpr hts
      rw [if_neg ht, hb]
      simp only [Bool.false_eq_true, if_false]
      omega

theorem matches_session {f : Filter} {e : Entry}
    (h : matchesFilter f e = true) : e.metadata.session_id = f.session_id := by
  unfold matchesFilter at h
  simp only [Bool.and_eq_true, beq_iff_eq] at h
  exact h.1

theorem get_none_eq (col : VectorIndex) (sid : String) :
    col.get ⟨sid, none⟩ none = sessionEntries col sid := rfl

theorem get_context_stats_congr {col1 col2 : VectorIndex} {sid : String}
    (h : col1.get ⟨sid, none⟩ none = col2.get ⟨sid, none⟩ none) :
    get_context_stats col1 sid = get_context_stats col2 sid := by
  unfold get_context_stats
  rw [h]

/-! ## Claims -/

/-- Claim C5 (confirmed): the type stored with every message is decided by
the precedence: user role yields `user_query`; otherwise a case-insensitive
`tool` substring or a literal tool pattern yields `tool_call`; otherwise
the assistant role yields `agent_response`; otherwise `chat`. -/
theorem stored_type_classification (clock : Nat → String) (tick : Nat)
    (m : Message) (sid : String) :
    (extract_metadata clock tick m sid).1.type =
      specClassify m.role m.content := by
  have h1 : (extract_metadata clock tick m sid).1.type = classifyType m := by
    unfold extract_metadata
    by_cases hd : pyStrOrTakesDefault m.timestamp <;> simp [hd]
  rw [h1]
  unfold classifyType specClassify
  split_ifs <;> simp_all [beq_iff_eq, Bool.or_eq_true]

/-- Claim C3 (code_bug): `clear_all_context` destroys the collection and
recreates it, but binds the new collection to a function-local name (the
Python function has no `global collection`), so the module-level handle
still refers to the destroyed generation 0: the registry holds the fresh
empty generation 1, yet `currentStore` finds nothing and the health check
fails instead of reporting the fresh collection. -/
theorem purge_all_stale_handle :
    clear_all_context populatedState =
      ⟨[("agent_context", 1)], [(1, ⟨[]⟩)], 2, 0⟩ ∧
    currentStore (clear_all_context populatedState) = none ∧
    root (clear_all_context populatedState) = none := by
  decide

/-- Claim C2 (confirmed): two adds with the same
`(session_id, content, timestamp)` produce the same id, and after both the
store holds exactly one entry under that id, carrying the second write's
document and metadata. -/
theorem add_deterministic_overwrite (encode1 encode2 : String → Int)
    (clock1 clock2 : Nat → String) (col : VectorIndex) (hwf : WF col)
    (tick1 tick2 : Nat) (sid : String) (m1 m2 : Message) (s : String)
    (hc : m1.content = m2.content) (ht1 : m1.timestamp = some s)
    (ht2 : m2.timestamp = some s) (hs : s.isEmpty = false) :
    (add_context encode2 clock2
        (add_context encode1 clock1 col tick1 sid m1).2.1 tick2 sid m2).1 =
      (add_context encode1 clock1 col tick1 sid m1).1 ∧
    ((add_context encode2 clock2
        (add_context encode1 clock1 col tick1 sid m1).2.1 tick2 sid
        m2).2.1.entries.filter
      (fun p => p.1 == (add_context encode1 clock1 col tick1 sid m1).1)) =
      [((add_context encode1 clock1 col tick1 sid m1).1,
        ⟨encode2 (compress_long_content m2.content 1000), m2.content,
         ⟨sid, m2.role, classifyType m2, s, strLen m2.content,
           m2.extra⟩⟩)] := by
  have e1 := add_context_of_some encode1 clock1 col tick1 sid m1 s ht1 hs
  rw [hc] at e1
  simp only [e1]
  have e2 := add_context_of_some encode2 clock2
    (col.insert (generate_id sid m2.content s)
      (encode1 (compress_long_content m2.content 1000)) m2.content
      ⟨sid, m1.role, classifyType m1, s, strLen m2.content, m1.extra⟩)
    tick2 sid m2 s ht2 hs
  simp only [e2]
  refine ⟨trivial, ?_⟩
  exact insert_filter_key _ (wf_insert hwf _ _ _ _) _ _ _ _

/-- Claim C2 witness: concrete collision of `msgW1`/`msgW2` on the empty
store. -/
theorem add_deterministic_overwrite_witness :
    (add_context encode0 clock0
        (add_context encode0 clock0 (⟨[]⟩ : VectorIndex) 0 "s" msgW1).2.1 0
        "s" msgW2).1 =
      (add_context encode0 clock0 (⟨[]⟩ : VectorIndex) 0 "s" msgW1).1 :=
  (add_deterministic_overwrite encode0 encode0 clock0 clock0 ⟨[]⟩
    List.nodup_nil 0 0 "s" msgW1 msgW2 "2024-01-01T00:00:00" rfl rfl rfl
    rfl).1

/-- Claim C4 (corrected), counterexample: with the caller's timestamp
omitted, the id hashes the first clock reading while the stored metadata
carries the second, strictly later reading, so the stored entry's id is not
the hash of its own stored timestamp. -/
theorem add_timestamp_counterexample :
    (add_context encode0 clockMicro (⟨[]⟩ : VectorIndex) 0 "s"
        ⟨"user", "hello", none, []⟩).2.1.entries =
      [(generate_id "s" "hello" "2024-01-01T00:00:00.000000",
        ⟨0, "hello",
         ⟨"s", "user", "user_query", "2024-01-01T00:00:00.000001", 5, []⟩⟩)] ∧
    generate_id "s" "hello" "2024-01-01T00:00:00.000000" ≠
      generate_id "s" "hello" "2024-01-01T00:00:00.000001" := by
  decide

/-- Claim C4 (corrected): when the caller supplies a non-empty timestamp,
that single value is both hashed into the id and stored in the metadata;
when the timestamp is omitted (or empty), the id hashes the clock reading
at `tick` while the metadata stores the separate, subsequent reading at
`tick + 1`. -/
theorem add_timestamp_amended (encode : String → Int) (clock : Nat → String)
    (col : VectorIndex) (tick : Nat) (sid : String) (m : Message) :
    (∀ s, m.timestamp = some s → s.isEmpty = false →
      add_context encode clock col tick sid m =
        (generate_id sid m.content s,
         col.insert (generate_id sid m.content s)
           (encode (compress_long_content m.content 1000)) m.content
           ⟨sid, m.role, classifyType m, s, strLen m.content, m.extra⟩,
         tick)) ∧
    (pyStrOrTakesDefault m.timestamp = true →
      add_context encode clock col tick sid m =
        (generate_id sid m.content (clock tick),
         col.insert (generate_id sid m.content (clock tick))
           (encode (compress_long_content m.content 1000)) m.content
           ⟨sid, m.role, classifyType m, clock (tick + 1), strLen m.content,
             m.extra⟩,
         tick + 2)) :=
  ⟨fun s hts hne => add_context_of_some encode clock col tick sid m s hts hne,
   fun hdef => add_context_of_default encode clock col tick sid m hdef⟩

/-- Claim C4 witness: the omitted-timestamp branch evaluated on the
concrete microsecond clock. -/
theorem add_timestamp_amended_witness :
    add_context encode0 clockMicro (⟨[]⟩ : VectorIndex) 0 "s"
        ⟨"user", "hello", none, []⟩ =
      (generate_id "s" "hello" (clockMicro 0),
       VectorIndex.insert ⟨[]⟩ (generate_id "s" "hello" (clockMicro 0))
         (encode0 (compress_long_content "hello" 1000)) "hello"
         ⟨"s", "user", classifyType ⟨"user", "hello", none, []⟩, clockMicro 1,
           strLen "hello", []⟩,
       2) :=
  (add_timestamp_amended encode0 clockMicro ⟨[]⟩ 0 "s"
    ⟨"user", "hello", none, []⟩).2 rfl

/-- Claim C6 (confirmed): for content longer than 1000 code points the
embedding input is the first 500 code points, the truncation marker, and
the last 500 code points, while shorter content is embedded unchanged; the
stored document is always the full original text and the stored
`content_length` is the original length. -/
theorem compression_isolation (encode : String → Int) (clock : Nat → String)
    (col : VectorIndex) (tick : Nat) (sid : String) (m : Message) :
    (strLen m.content > 1000 →
      compress_long_content m.content 1000 =
        strTake m.content 500 ++ "\n... [content truncated] ...\n" ++
          strTakeRight m.content 500) ∧
    (strLen m.content ≤ 1000 →
      compress_long_content m.content 1000 = m.content) ∧
    (add_context encode clock col tick sid m).2.1 =
      col.insert (add_context encode clock col tick sid m).1
        (encode (compress_long_content m.content 1000)) m.content
        (extract_metadata clock
          (if pyStrOrTakesDefault m.timestamp then tick + 1 else tick) m
          sid).1 ∧
    (extract_metadata clock
        (if pyStrOrTakesDefault m.timestamp then tick + 1 else tick) m
        sid).1.content_length = strLen m.content := by
  refine ⟨?_, ?_, ?_, ?_⟩
  · intro h
    unfold compress_long_content
    rw [if_neg (by omega)]
    simp
  · intro h
    unfold compress_long_content
    rw [if_pos h]
  · by_cases hd : pyStrOrTakesDefault m.timestamp = true
    · rw [add_context_of_default encode clock col tick sid m hd]
      simp only [hd, eq_self_iff_true, if_true]
      have hext : (extract_metadata clock (tick + 1) m sid).1 =
          ⟨sid, m.role, classifyType m, clock (tick + 1), strLen m.content,
           m.extra⟩ := by
        unfold extract_metadata
        simp [hd]
      rw [hext]
    · have hd' : pyStrOrTakesDefault m.timestamp = false := by
        rwa [Bool.not_eq_true] at hd
      obtain ⟨s, hts, hse⟩ :
          ∃ s, m.timestamp = some s ∧ s.isEmpty = false := by
        cases hmt : m.timestamp with
        | none => simp [pyStrOrTakesDefault, hmt] at hd'
        | some s =>
          exact ⟨s, rfl, by simpa [pyStrOrTakesDefault, hmt] using hd'⟩
      rw [add_context_of_some encode clock col tick sid m s hts hse]
      simp only [hd', Bool.false_eq_true, if_false]
      have hext : (extract_metadata clock tick m sid).1 =
          ⟨sid, m.role, classifyType m, s, strLen m.content, m.extra⟩ := by
        unfold extract_metadata
        simp [pyStrOrTakesDefault, pyStrOr, hts, hse]
      rw [hext]
  · by_cases hd : pyStrOrTakesDefault m.timestamp = true
    · simp only [hd, eq_self_iff_true, if_true]
      unfold extract_metadata
      simp [hd]
    · have hd' : pyStrOrTakesDefault m.timestamp = false := by
        rwa [Bool.not_eq_true] at hd
      simp only [hd', Bool.false_eq_true, if_false]
      unfold extract_metadata
      simp [hd']

set_option maxRecDepth 8192 in
/-- Claim C6 witness: the 1200-character content is compressed to its first
and last 500 characters around the marker. -/
theorem compression_isolation_witness :
    strLen longContent > 1000 ∧
    compress_long_content longContent 1000 =
      strTake longContent 500 ++ "\n... [content truncated] ...\n" ++
        strTakeRight longContent 500 :=
  ⟨by decide,
   (compression_isolation encode0 clock0 ⟨[]⟩ 0 "s"
     ⟨"user", longContent, some "2024-01-01T00:00:00", []⟩).1 (by decide)⟩

/-- Claim C10 (confirmed): `clear` deletes exactly the session's entries,
reports how many the session held just before the call, leaves the session
empty, and an immediately repeated clear reports zero. -/
theorem clear_semantics (col : VectorIndex) (sid : String) (hwf : WF col) :
    (clear_context col sid).1 = (sessionEntries col sid).length ∧
    (clear_context col sid).2.entries =
      col.entries.filter (fun p => !(matchesFilter ⟨sid, none⟩ p.2)) ∧
    sessionEntries (clear_context col sid).2 sid = [] ∧
    (clear_context (clear_context col sid).2 sid).1 = 0 := by
  have h2 := clear_context_entries col sid hwf
  have h3 : sessionEntries (clear_context col sid).2 sid = [] := by
    unfold sessionEntries
    rw [h2, List.filter_filter]
    have hfun : (fun p : String × Entry =>
        matchesFilter ⟨sid, none⟩ p.2 && !(matchesFilter ⟨sid, none⟩ p.2)) =
        fun p => false := by
      funext p
      exact Bool.and_not_self _
    rw [hfun, List.filter_false]
  have h4 : (clear_context (clear_context col sid).2 sid).1 = 0 := by
    have hrfl : (clear_context (clear_context col sid).2 sid).1 =
        (sessionEntries (clear_context col sid).2 sid).length := rfl
    rw [hrfl, h3]
    rfl
  exact ⟨rfl, h2, h3, h4⟩

/-- Claim C10 witness: clearing session `s` of the concrete store reports
its two entries, and an immediate second clear reports zero. -/
theorem clear_semantics_witness :
    (clear_context sampleCol "s").1 = (sessionEntries sampleCol "s").length ∧
    (clear_context (clear_context sampleCol "s").2 "s").1 = 0 :=
  (fun h => ⟨h.1, h.2.2.2⟩)
    (clear_semantics sampleCol "s" (by unfold WF; decide))

/-- Claim C7 (confirmed): entries of session `a` never appear in `query`,
`recent`, `stats` or `clear` invoked for a different session `b`: all query
and recent results carry session `b` (hence differ from the `a` entry's
metadata), clearing `b` keeps the `a` entry, and the stats of `b` are
unchanged when all `a` entries are removed from the store. -/
theorem session_isolation (encode : String → Int) (col : VectorIndex)
    (hwf : WF col) (a b : String) (hab : a ≠ b) (id : String) (e : Entry)
    (hmem : (id, e) ∈ col.entries) (hsess : e.metadata.session_id = a)
    (q : String) (top_k : Nat) (fbt : Option String) (limit offset : Nat) :
    (∀ m ∈ (query_context encode col b q top_k fbt).messages,
      m.metadata.session_id = b ∧ m.metadata ≠ e.metadata) ∧
    (∀ m ∈ (get_recent_context col b limit offset).messages,
      m.metadata.session_id = b ∧ m.metadata ≠ e.metadata) ∧
    (id, e) ∈ (clear_context col b).2.entries ∧
    get_context_stats col b =
      get_context_stats
        ⟨col.entries.filter (fun p => !(p.2.metadata.session_id == a))⟩ b := by
  refine ⟨?_, ?_, ?_, ?_⟩
  · intro m hm
    unfold query_context at hm
    rcases List.mem_map.mp hm with ⟨p, hp, rfl⟩
    obtain ⟨hpcol, hpmatch⟩ := mem_nearestNeighbors hp
    refine ⟨matches_session hpmatch, ?_⟩
    intro heq
    apply hab
    rw [← hsess, ← heq]
    exact matches_session hpmatch
  · intro m hm
    rcases mem_recent_messages hm with ⟨p, hpcol, hpmatch, rfl⟩
    refine ⟨matches_session hpmatch, ?_⟩
    intro heq
    apply hab
    rw [← hsess, ← heq]
    exact matches_session hpmatch
  · rw [clear_context_entries col b hwf]
    apply List.mem_filter.mpr
    refine ⟨hmem, ?_⟩
    have hfalse : matchesFilter ⟨b, none⟩ e = false := by
      unfold matchesFilter
      simp [beq_iff_eq, hsess, hab]
    rw [hfalse]
    rfl
  · apply get_context_stats_congr
    unfold VectorIndex.get
    simp only
    rw [List.filter_filter]
    have hfun : (fun p : String × Entry =>
        matchesFilter ⟨b, none⟩ p.2 && !(p.2.metadata.session_id == a)) =
        (fun p => matchesFilter ⟨b, none⟩ p.2) := by
      funext p
      by_cases hmatch : matchesFilter ⟨b, none⟩ p.2 = true
      · rw [hmatch]
        have hsb : p.2.metadata.session_id = b := matches_session hmatch
        have hba : (p.2.metadata.session_id == a) = false := by
          rw [hsb]
          exact beq_eq_false_iff_ne.mpr (fun hh => hab hh.symm)
        rw [hba]
        rfl
      · rw [Bool.not_eq_true] at hmatch
        rw [hmatch]
        rfl
    rw [hfun]

/-- Claim C7 witness: the `other`-session entry of the concrete store
survives a clear of session `s`. -/
theorem session_isolation_witness :
    ("id3",
      sampleEntry "other" "user" "user_query" "2024-01-03T00:00:00" "bye") ∈
      (clear_context sampleCol "s").2.entries :=
  (session_isolation encode0 sampleCol (by unfold WF; decide) "other" "s"
    (by decide) "id3"
    (sampleEntry "other" "user" "user_query" "2024-01-03T00:00:00" "bye")
    (by decide) rfl "q" 5 none 10 0).2.2.1

/-- Claim C8 (confirmed): every query returns at most `min(top_k, 20)`
results (so `top_k = 50` yields at most 20), `total_count` is the number of
returned messages, results are ordered most-similar first (ascending
distance), and a session with no matching entries yields the empty
response, not an error. -/
theorem query_cap_and_order (encode : String → Int) (col : VectorIndex)
    (sid q : String) (top_k : Nat) (fbt : Option String) :
    (query_context encode col sid q top_k fbt).messages.length ≤
      min top_k 20 ∧
    (query_context encode col sid q top_k fbt).total_count =
      (query_context encode col sid q top_k fbt).messages.length ∧
    List.Pairwise (fun a b => a.distance ≤ b.distance)
      (query_context encode col sid q top_k fbt).messages ∧
    ((∀ p ∈ col.entries, matchesFilter ⟨sid, fbt⟩ p.2 = false) →
      query_context encode col sid q top_k fbt = ⟨[], 0⟩) := by
  refine ⟨?_, rfl, ?_, ?_⟩
  · unfold query_context
    simp only [List.length_map]
    exact length_nearestNeighbors col (encode q) ⟨sid, fbt⟩ (min top_k 20)
  · unfold query_context
    simp only
    rw [List.pairwise_map]
    refine List.Pairwise.imp ?_
      (nearestNeighbors_sorted col (encode q) ⟨sid, fbt⟩ (min top_k 20))
    intro p1 p2 hle
    exact hle
  · intro h
    have hfil : col.entries.filter
        (fun p => matchesFilter ⟨sid, fbt⟩ p.2) = [] :=
      List.filter_eq_nil_iff.mpr (fun p hp => by simp [h p hp])
    unfold query_context VectorIndex.nearestNeighbors
    rw [hfil]
    simp

/-- Claim C8 witness: a query on the empty store at `top_k = 50` returns
the empty response. -/
theorem query_cap_and_order_witness :
    query_context encode0 (⟨[]⟩ : VectorIndex) "s" "q" 50 none = ⟨[], 0⟩ :=
  (query_cap_and_order encode0 ⟨[]⟩ "s" "q" 50 none).2.2.2
    (fun p hp => absurd hp (List.not_mem_nil p))

/-- Claim C1 (corrected), counterexample: with two entries stored for
session `s`, `recent(s, 1, 0)` passes `limit + offset = 1` to the index
fetch, so `total_count` is 1 instead of the pre-pagination total 2 and the
returned message is not the slice of all entries sorted by timestamp
descending (the older entry is returned). -/
theorem recent_total_count_counterexample :
    (sessionEntries sampleCol "s").length = 2 ∧
    (get_recent_context sampleCol "s" 1 0).total_count = 1 ∧
    (get_recent_context sampleCol "s" 1 0).messages ≠
      ((sortByTimestampDesc ((sessionEntries sampleCol "s").map
        toRecentMessage)).drop 0).take 1 := by
  decide

/-- Claim C1 (corrected): `recent` fetches at most `limit + offset` entries
from the index; whenever the session holds at most `limit + offset` entries
the claimed behaviour holds: the messages are the slice
`[offset, offset + limit)` of all the session's entries sorted by timestamp
descending (string comparison by code point), the output is pairwise
descending, and `total_count` is the pre-pagination session total. -/
theorem recent_pagination_amended (col : VectorIndex) (sid : String)
    (limit offset : Nat)
    (h : (sessionEntries col sid).length ≤ limit + offset) :
    (get_recent_context col sid limit offset).messages =
      ((sortByTimestampDesc ((sessionEntries col sid).map
        toRecentMessage)).drop offset).take limit ∧
    (get_recent_context col sid limit offset).total_count =
      (sessionEntries col sid).length ∧
    List.Pairwise (fun a b => b.timestamp.data ≤ a.timestamp.data)
      (get_recent_context col sid limit offset).messages := by
  have hget : col.get ⟨sid, none⟩ (some (limit + offset)) =
      sessionEntries col sid := by
    unfold VectorIndex.get sessionEntries
    exact List.take_of_length_le h
  unfold get_recent_context
  rw [hget]
  by_cases hemp : (sessionEntries col sid).isEmpty = true
  · have hnil : sessionEntries col sid = [] := List.isEmpty_iff.mp hemp
    rw [if_pos hemp]
    refine ⟨?_, ?_, ?_⟩
    · rw [hnil]
      simp [sortByTimestampDesc]
    · rw [hnil]
      rfl
    · exact List.Pairwise.nil
  · rw [if_neg hemp]
    refine ⟨rfl, ?_, ?_⟩
    · simp only [List.length_map]
    · exact List.Pairwise.sublist
        ((List.take_sublist _ _).trans (List.drop_sublist _ _))
        (sortByTimestampDesc_sorted _)

/-- Claim C1 witness: with `limit = 2`, `offset = 0` the session total fits
the fetch limit and `total_count` equals the pre-pagination total. -/
theorem recent_pagination_amended_witness :
    (sessionEntries sampleCol "s").length ≤ 2 + 0 ∧
    (get_recent_context sampleCol "s" 2 0).total_count =
      (sessionEntries sampleCol "s").length :=
  ⟨by decide, (recent_pagination_amended sampleCol "s" 2 0 (by decide)).2.1⟩

/-- Claim C9 (confirmed): `stats` reports the exact number of entries of
the session, a by-type table whose lookups are the exact per-type counts
(absent exactly for count zero) and whose values sum to the total, and the
code-point-lexicographic minimum and maximum of the stored timestamps; an
empty session yields zero, an empty table and no timestamp fields. -/
theorem stats_aggregation (col : VectorIndex) (sid : String) :
    (get_context_stats col sid).total_messages =
      (sessionEntries col sid).length ∧
    (∀ t, (get_context_stats col sid).by_type.lookup t =
      (if (sessionEntries col sid).countP
          (fun p => p.2.metadata.type == t) = 0 then none
       else some ((sessionEntries col sid).countP
          (fun p => p.2.metadata.type == t)))) ∧
    ((get_context_stats col sid).by_type.map Prod.snd).sum =
      (sessionEntries col sid).length ∧
    (sessionEntries col sid = [] →
      get_context_stats col sid = ⟨sid, 0, [], none, none⟩) ∧
    (sessionEntries col sid ≠ [] →
      (get_context_stats col sid).oldest_message =
        some (listMin ((sessionEntries col sid).map
          (fun p => p.2.metadata.timestamp))) ∧
      listMin ((sessionEntries col sid).map
          (fun p => p.2.metadata.timestamp)) ∈
        (sessionEntries col sid).map (fun p => p.2.metadata.timestamp) ∧
      (∀ y ∈ (sessionEntries col sid).map
          (fun p => p.2.metadata.timestamp),
        (listMin ((sessionEntries col sid).map
          (fun p => p.2.metadata.timestamp))).data ≤ y.data) ∧
      (get_context_stats col sid).newest_message =
        some (listMax ((sessionEntries col sid).map
          (fun p => p.2.metadata.timestamp))) ∧
      listMax ((sessionEntries col sid).map
          (fun p => p.2.metadata.timestamp)) ∈
        (sessionEntries col sid).map (fun p => p.2.metadata.timestamp) ∧
      (∀ y ∈ (sessionEntries col sid).map
          (fun p => p.2.metadata.timestamp),
        y.data ≤ (listMax ((sessionEntries col sid).map
          (fun p => p.2.metadata.timestamp))).data)) := by
  by_cases hemp : (sessionEntries col sid).isEmpty = true
  · have hnil : sessionEntries col sid = [] := List.isEmpty_iff.mp hemp
    have hstats : get_context_stats col sid = ⟨sid, 0, [], none, none⟩ := by
      simp [get_context_stats, get_none_eq, hnil]
    refine ⟨?_, ?_, ?_, fun _ => hstats, fun hne => absurd hnil hne⟩
    · rw [hstats, hnil]
      rfl
    · intro t
      rw [hstats, hnil]
      simp [List.lookup]
    · rw [hstats, hnil]
      rfl
  · have hne' : sessionEntries col sid ≠ [] := by
      intro hnil
      apply hemp
      rw [hnil]
      rfl
    obtain ⟨x, xs, hcons⟩ := List.exists_cons_of_ne_nil hne'
    have hrep0 := fold_rep (sessionEntries col sid) [] (fun _ => 0) 0
      ⟨List.nodup_nil, fun t => by simp [List.lookup], rfl⟩
    have hrep := rep_ext (fun t => Nat.zero_add _) hrep0
    have hstats_eq : get_context_stats col sid =
        ⟨sid, (sessionEntries col sid).length,
         (sessionEntries col sid).foldl
           (fun acc p => bumpCount acc p.2.metadata.type) [],
         some (listMin ((sessionEntries col sid).map
           (fun p => p.2.metadata.timestamp))),
         some (listMax ((sessionEntries col sid).map
           (fun p => p.2.metadata.timestamp)))⟩ := by
      have hemp2 : (sessionEntries col sid).isEmpty = false := by
        rwa [Bool.not_eq_true] at hemp
      simp only [get_context_stats, get_none_eq, hemp2, Bool.false_eq_true,
        if_false]
    refine ⟨?_, ?_, ?_, fun hnil => absurd hnil hne', fun _ => ?_⟩
    · rw [hstats_eq]
    · intro t
      rw [hstats_eq]
      exact hrep.2.1 t
    · rw [hstats_eq]
      have h2 := hrep.2.2
      simpa using h2
    · refine ⟨?_, ?_, ?_, ?_, ?_, ?_⟩
      · rw [hstats_eq]
      · rw [hcons]
        simp only [List.map_cons]
        exact (listMin_spec _ _).1
      · rw [hcons]
        simp only [List.map_cons]
        exact (listMin_spec _ _).2
      · rw [hstats_eq]
      · rw [hcons]
        simp only [List.map_cons]
        exact (listMax_spec _ _).1
      · rw [hcons]
        simp only [List.map_cons]
        exact (listMax_spec _ _).2

/-- Claim C9 witness: the oldest message of session `s` in the concrete
store is its lexicographically smallest timestamp. -/
theorem stats_aggregation_witness :
    sessionEntries sampleCol "s" ≠ [] ∧
    (get_context_stats sampleCol "s").oldest_message =
      some (listMin ((sessionEntries sampleCol "s").map
        (fun p => p.2.metadata.timestamp))) :=
  ⟨by decide, ((stats_aggregation sampleCol "s").2.2.2.2 (by decide)).1⟩

end ContextService
